import Mathlib

/-!
Verification of the tanmia_scrapper acquisition/extraction pipeline.

Shallow embedding of the relevant parts of `scraper.py`, `analyzer.py` and
`utils.py`.  Python strings are modelled as Lean `String`s (sequences of
code points, so `len`, slicing and per-character tests agree); Python
`set`s are modelled as duplicate-free lists (`List.dedup`), with every
theorem that depends on them stated up to membership or after sorting,
since Python set iteration order is unspecified; Python regular
expressions are modelled by a small backtracking token matcher whose token
lists transcribe the source patterns one atom at a time.  The character
classes use ASCII semantics (`\w`, `\s`, `str.lower` restricted to ASCII),
which is exact on all inputs considered here.  All definitions are
executable and all recursion is structural, so concrete runs reduce inside
the kernel.
-/

/-! ## Character classes (ASCII semantics of the Python regex classes) -/

def isDigitC (c : Char) : Bool := 48 ≤ c.toNat && c.toNat ≤ 57

def isUpperC (c : Char) : Bool := 65 ≤ c.toNat && c.toNat ≤ 90

def isLowerC (c : Char) : Bool := 97 ≤ c.toNat && c.toNat ≤ 122

def isAlphaC (c : Char) : Bool := isUpperC c || isLowerC c

/-- Python regex `\w` (ASCII). -/
def isWordC (c : Char) : Bool := isAlphaC c || isDigitC c || c == '_'

/-- Python regex `\s` / `str.strip` whitespace (ASCII). -/
def isSpaceC (c : Char) : Bool :=
  c == ' ' || c == '\t' || c == '\n' || c == '\r' || c == '\x0b' || c == '\x0c'

/-- Regex class `[A-Za-z0-9._%+-]` (the local part in all four patterns). -/
def localCls (c : Char) : Bool :=
  isAlphaC c || isDigitC c || c == '.' || c == '_' || c == '%' || c == '+' || c == '-'

/-- Regex class `[A-Za-z0-9.-]` (the domain part in all four patterns). -/
def domCls (c : Char) : Bool := isAlphaC c || isDigitC c || c == '.' || c == '-'

/-- Regex class `[A-Z|a-z]` (the TLD part; the class literally contains `|`). -/
def tldCls (c : Char) : Bool := isUpperC c || isLowerC c || c == '|'

/-- Models `str.lower` on one character (ASCII range; all inputs here are ASCII). -/
def asciiLower (c : Char) : Char :=
  if 65 ≤ c.toNat ∧ c.toNat ≤ 90 then Char.ofNat (c.toNat + 32) else c

/-- Models `str.upper` on one character (ASCII range). -/
def asciiUpper (c : Char) : Char :=
  if 97 ≤ c.toNat ∧ c.toNat ≤ 122 then Char.ofNat (c.toNat - 32) else c

/-- Models `str.lower` on a whole string. -/
def lowerStr (s : String) : String := String.mk (s.data.map asciiLower)

/-- Models `str.upper` on a whole string. -/
def upperStr (s : String) : String := String.mk (s.data.map asciiUpper)

/-- Drop leading whitespace (one side of `str.strip`). -/
def dropLeadingSpace (l : List Char) : List Char := l.dropWhile isSpaceC

/-- Models `str.strip` on a character list: drop whitespace at both ends. -/
def stripChars (l : List Char) : List Char :=
  ((l.dropWhile isSpaceC).reverse.dropWhile isSpaceC).reverse

/-- Models `str.strip` on a string. -/
def stripStr (s : String) : String := String.mk (stripChars s.data)

/-- Models `s.startswith(p)` via the underlying character lists (kernel-reducible,
unlike core `String.startsWith`). -/
def startsWithStr (s p : String) : Bool := p.data.isPrefixOf s.data

/-- Models `s[:n]` — the first `n` code points (kernel-reducible `String.take`). -/
def takeStr (s : String) (n : Nat) : String := String.mk (s.data.take n)

/-- Join with a separator, `sep.join(parts)` (kernel-reducible
`String.intercalate`). -/
def joinSep (sep : String) : List String → String
  | [] => ""
  | [p] => p
  | p :: ps => p ++ sep ++ joinSep sep ps

/-- Split on a single character, Python's `s.split(c)`. -/
def splitOnCharAux (c : Char) : List Char → List Char → List String
  | [], cur => [String.mk cur.reverse]
  | x :: xs, cur =>
    if x = c then String.mk cur.reverse :: splitOnCharAux c xs []
    else splitOnCharAux c xs (x :: cur)

def splitOnChar (c : Char) (s : String) : List String := splitOnCharAux c s.data []

/-- Substring containment, Python's `needle in hay`. -/
def containsSub (needle : List Char) : List Char → Bool
  | [] => needle.isPrefixOf []
  | c :: cs => needle.isPrefixOf (c :: cs) || containsSub needle cs

def containsSubStr (hay needle : String) : Bool := containsSub needle.data hay.data

/-- Split a character list at the first occurrence of `c`
(`some (before, after)`), or `none` when `c` does not occur. -/
def splitAtFirst (c : Char) : List Char → Option (List Char × List Char)
  | [] => none
  | x :: xs =>
    if x = c then some ([], xs)
    else match splitAtFirst c xs with
      | some (l, r) => some (x :: l, r)
      | none => none

/-! ## A small backtracking matcher for the source's email regexes

Each Python pattern is transcribed as a list of tokens: a character class
with a quantifier, a literal, a case-insensitive literal, an alternation
of literals, or a word-boundary assertion.  Greedy quantifiers backtrack
from the longest run, later tokens backtracking before earlier ones —
exactly Python `re`'s leftmost-greedy strategy for these patterns.
`grps` lists the capture groups a token's consumed characters feed
(0 stands for the whole match). -/

inductive Quant
  | plus
  | star
  | twoPlus
deriving Repr

inductive Tok
  | cls (p : Char → Bool) (q : Quant) (grps : List Nat)
  | lit (s : List Char) (grps : List Nat)
  | litCI (s : List Char) (grps : List Nat)
  | alt (ss : List (List Char)) (grps : List Nat)
  | wb

structure MState where
  prev : Option Char := none
  rest : List Char
  consumed : Nat := 0
  g0 : List Char := []
  g1 : List Char := []
  g2 : List Char := []
  g3 : List Char := []

def addGrp (st : MState) (grps : List Nat) (taken : List Char) : MState :=
  { st with
    g0 := if 0 ∈ grps then st.g0 ++ taken else st.g0
    g1 := if 1 ∈ grps then st.g1 ++ taken else st.g1
    g2 := if 2 ∈ grps then st.g2 ++ taken else st.g2
    g3 := if 3 ∈ grps then st.g3 ++ taken else st.g3 }

def consumeChars (st : MState) (n : Nat) (grps : List Nat) : MState :=
  let taken := st.rest.take n
  let st' := addGrp st grps taken
  { st' with
    rest := st.rest.drop n
    consumed := st.consumed + taken.length
    prev := match taken.getLast? with
      | some c => some c
      | none => st.prev }

def optWord : Option Char → Bool
  | none => false
  | some c => isWordC c

/-- Python `\b`: a word character on exactly one side. -/
def wordBoundaryB (prev next : Option Char) : Bool := optWord prev != optWord next

/-- Candidate consumption counts for a quantified class, greedy first. -/
def ksFor (q : Quant) (maxRun : Nat) : List Nat :=
  match q with
  | .plus => (List.range maxRun).reverse.map (· + 1)
  | .star => (List.range (maxRun + 1)).reverse
  | .twoPlus => (List.range (maxRun - 1)).reverse.map (· + 2)

def matchToks : List Tok → MState → Option MState
  | [], st => some st
  | .wb :: toks, st =>
    if wordBoundaryB st.prev st.rest.head? then matchToks toks st else none
  | .lit s grps :: toks, st =>
    if s.isPrefixOf st.rest then matchToks toks (consumeChars st s.length grps) else none
  | .litCI s grps :: toks, st =>
    if (st.rest.take s.length).map asciiLower == s then
      matchToks toks (consumeChars st s.length grps)
    else none
  | .alt ss grps :: toks, st =>
    ss.findSome? (fun s =>
      if s.isPrefixOf st.rest then matchToks toks (consumeChars st s.length grps) else none)
  | .cls p q grps :: toks, st =>
    let maxRun := (st.rest.takeWhile p).length
    (ksFor q maxRun).findSome? (fun k =>
      if k ≤ maxRun then matchToks toks (consumeChars st k grps) else none)

/-- Models `re.finditer`: scan left to right, non-overlapping, resuming at each
match's end.  `fuel` bounds the number of iterations (every iteration
advances at least one character for the patterns used here). -/
def scanAux (pat : List Tok) (mk : MState → String) :
    Nat → Option Char → List Char → List String → List String
  | 0, _, _, acc => acc.reverse
  | Nat.succ fuel, prev, s, acc =>
    match matchToks pat { prev := prev, rest := s } with
    | some st =>
      if st.consumed == 0 then
        -- unreachable for the four source patterns: each consumes a literal
        match s with
        | [] => acc.reverse
        | c :: cs => scanAux pat mk fuel (some c) cs acc
      else scanAux pat mk fuel st.prev st.rest (mk st :: acc)
    | none =>
      match s with
      | [] => acc.reverse
      | c :: cs => scanAux pat mk fuel (some c) cs acc

def findPattern (pat : List Tok) (mk : MState → String) (s : List Char) : List String :=
  scanAux pat mk (s.length + 1) none s []

/-- Models `f"{m.group(1)}@{m.group(2)}.{m.group(3)}"`. -/
def mkGroups123 (st : MState) : String :=
  String.mk (st.g1 ++ '@' :: st.g2 ++ '.' :: st.g3)

/-- The whole match (patterns used with `re.findall` and no groups). -/
def mkWhole (st : MState) : String := String.mk st.g0

/-! ## The four source patterns (scraper.py lines 103-122, identical in
analyzer.py lines 509-525) -/

/-- Pattern `r'\b[A-Za-z0-9._%+-]+@[A-Za-z0-9.-]+\.[A-Z|a-z]{2,}\b'` -/
def pattern1 : List Tok :=
  [ .wb,
    .cls localCls .plus [0],
    .lit ['@'] [0],
    .cls domCls .plus [0],
    .lit ['.'] [0],
    .cls tldCls .twoPlus [0],
    .wb ]

/-- Pattern `r'\b([A-Za-z0-9._%+-]+)\s*@\s*([A-Za-z0-9.-]+)\s*\.\s*([A-Z|a-z]{2,})\b'` -/
def pattern2 : List Tok :=
  [ .wb,
    .cls localCls .plus [1],
    .cls isSpaceC .star [],
    .lit ['@'] [],
    .cls isSpaceC .star [],
    .cls domCls .plus [2],
    .cls isSpaceC .star [],
    .lit ['.'] [],
    .cls isSpaceC .star [],
    .cls tldCls .twoPlus [3],
    .wb ]

/-- Pattern `r'\b([A-Za-z0-9._%+-]+)\s+(?:at|AT)\s+([A-Za-z0-9.-]+)\s+(?:dot|DOT)\s+([A-Z|a-z]{2,})\b'` -/
def pattern3 : List Tok :=
  [ .wb,
    .cls localCls .plus [1],
    .cls isSpaceC .plus [],
    .alt [['a', 't'], ['A', 'T']] [],
    .cls isSpaceC .plus [],
    .cls domCls .plus [2],
    .cls isSpaceC .plus [],
    .alt [['d', 'o', 't'], ['D', 'O', 'T']] [],
    .cls isSpaceC .plus [],
    .cls tldCls .twoPlus [3],
    .wb ]

/-- Pattern `r'\b([A-Za-z0-9._%+-]+)\s*\[at\]\s*([A-Za-z0-9.-]+)\s*\[dot\]\s*([A-Z|a-z]{2,})\b'`
with `re.IGNORECASE` (only the bracketed literals are case-dependent). -/
def pattern4 : List Tok :=
  [ .wb,
    .cls localCls .plus [1],
    .cls isSpaceC .star [],
    .litCI ['[', 'a', 't', ']'] [],
    .cls isSpaceC .star [],
    .cls domCls .plus [2],
    .cls isSpaceC .star [],
    .litCI ['[', 'd', 'o', 't', ']'] [],
    .cls isSpaceC .star [],
    .cls tldCls .twoPlus [3],
    .wb ]

/-- The per-candidate cleanup at the end of `extract_emails_from_text`:
`email = re.sub(r'\s+', '', email).lower()` then keep it only when
`'@' in email and '.' in email.split('@')[1]`. -/
def cleanupEmail (e : String) : Option String :=
  let cleaned := String.mk ((e.data.filter (fun c => !isSpaceC c)).map asciiLower)
  match splitAtFirst '@' cleaned.data with
  | some (_, afterAt) =>
    -- `email.split('@')[1]` is the run between the first and second `@`
    if '.' ∈ afterAt.takeWhile (· ≠ '@') then some cleaned else none
  | none => none

/-- Embeds `scraper.py::extract_emails_from_text` (lines 82-131).  The Python
function accumulates all four patterns' matches in a `set`, cleans each
candidate, and returns `list(set(cleaned))`; the unspecified set order is
modelled by concatenation followed by `dedup`. -/
def extract_emails_from_text (text : String) : List String :=
  if text = "" then []
  else
    let cs := text.data
    let m1 := findPattern pattern1 mkWhole cs
    let m2 := findPattern pattern2 mkGroups123 cs
    let m3 := findPattern pattern3 mkGroups123 cs
    let m4 := findPattern pattern4 mkGroups123 cs
    (((m1 ++ m2 ++ m3 ++ m4).filterMap cleanupEmail)).dedup

/-- Embeds `analyzer.py::extract_emails_regex` (lines 501-533): character for
character the same patterns and cleanup as
`scraper.py::extract_emails_from_text`. -/
def extract_emails_regex (text : String) : List String :=
  extract_emails_from_text text

/-! ## analyzer.py: email normalization and consolidation -/

/-- Does `r` decompose as `domain "." tld` with `domain` a non-empty run of
`[\w\.\-]` and `tld` a final run of `\w` of length at least 2?  This is the
part of `r'^[\w\.\-\+]+@[\w\.\-]+\.\w{2,}$'` after the `@`; a match exists
iff some split position works, which is what backtracking searches. -/
def domainTailOk (r : List Char) : Bool :=
  (List.range r.length).any (fun j =>
    decide (r.take j ≠ []) && (r.take j).all (fun c => isWordC c || c == '.' || c == '-')
      && (r.get? j == some '.')
      && decide (2 ≤ (r.drop (j + 1)).length) && (r.drop (j + 1)).all isWordC)

/-- Models `re.match(r'^[\w\.\-\+]+@[\w\.\-]+\.\w{2,}$', s)` as a Boolean.  The
local-part class excludes `@`, so the pattern's `@` is the first `@` of
`s`, and no class after it accepts `@`. -/
def emailFilterOk (s : String) : Bool :=
  match splitAtFirst '@' s.data with
  | some (l, r) =>
    decide (l ≠ []) && l.all (fun c => isWordC c || c == '.' || c == '-' || c == '+')
      && domainTailOk r
  | none => false

/-- Models `email.strip().lower()`. -/
def normEmail (e : String) : String := String.mk ((stripChars e.data).map asciiLower)

/-- One candidate of `normalize_and_dedup_emails`'s loop: the guard
`if email and '@' in str(email)`, then normalization, then the syntactic
filter; `some` means the value inserted into the set. -/
def acceptNorm (e : String) : Option String :=
  if e ≠ "" ∧ '@' ∈ e.data then
    let normalized := normEmail e
    if emailFilterOk normalized then some normalized else none
  else none

/-- Lexicographic strict order on code points — Python's `<` on strings. -/
def strLtChars : List Char → List Char → Bool
  | _, [] => false
  | [], _ :: _ => true
  | a :: as, b :: bs =>
    if a.toNat < b.toNat then true
    else if b.toNat < a.toNat then false
    else strLtChars as bs

/-- Python's `<=` on strings (total order used by `sorted`). -/
def strLe (a b : String) : Prop := strLtChars b.data a.data = false

instance : DecidableRel strLe := fun a b =>
  inferInstanceAs (Decidable (strLtChars b.data a.data = false))

/-- Embeds `analyzer.py::normalize_and_dedup_emails` (lines 52-67): insert every
accepted normalized candidate into a set, return `sorted(set)`.  The set
is modelled as `dedup`; `sorted` is insertion sort by code-point order,
which is Python's string order. -/
def normalize_and_dedup_emails (emails_page emails_fichiers : List String) : List String :=
  List.insertionSort strLe (((emails_page ++ emails_fichiers).filterMap acceptNorm).dedup)

/-! ## Data model (the dicts produced by scraper.py and analyzer.py) -/

/-- One entry of `fichiers_attaches` as built by
`scraper.py::extract_attachments` v1.8. -/
structure Fichier where
  nom : String
  url : String
  type : String
  contenu_texte : String
  emails_fichier : List String
deriving DecidableEq, Repr

/-- The dict returned by `scraper.py::scrape_detail_page` (lines 538-546). -/
structure PostingRecord where
  url : String
  titre : String
  organisation : String
  date : String
  texte_complet : String
  fichiers_attaches : List Fichier
  emails_from_files : List String
deriving DecidableEq, Repr

/-- The analysis dict produced by the model path or the fallback. -/
structure AnalysisResult where
  organisation : String
  emails : List String
  secteur : String
  type_opportunite : String
  localisation : String
  resume : String
  mots_cles : List String
deriving DecidableEq, Repr

/-- The parenthesised attachment annotation appended to the fallback
summary: `f" ({len(fichiers)} fichier(s), {nb_parses} parsé(s))"`. -/
def fallback_resume_note (fichiers : List Fichier) : String :=
  let nf := fichiers.length
  let np := (fichiers.filter (fun f => f.contenu_texte ≠ "")).length
  s!" ({nf} fichier(s), {np} parsé(s))"

/-- Embeds `analyzer.py::create_fallback_analysis` (lines 322-349). -/
def create_fallback_analysis (data : PostingRecord) : AnalysisResult :=
  let texte := data.texte_complet
  let emails := extract_emails_regex texte
  let emails_files := data.emails_from_files
  let all_emails := (emails ++ emails_files).dedup
  let resume0 := if texte.length > 200 then takeStr texte 200 ++ "..." else texte
  let fichiers := data.fichiers_attaches
  let resume := if fichiers ≠ [] then resume0 ++ fallback_resume_note fichiers else resume0
  { organisation := data.organisation
    emails := all_emails
    secteur := "Autre"
    type_opportunite := "Non déterminé"
    localisation := "Non spécifié"
    resume := resume
    mots_cles := [] }

/-- Embeds `analyzer.py::analyze_with_claude` (lines 420-483).  The HTTP call to
the model and the JSON decoding are external; `modelResult` is `some r`
when the call and `json.loads` succeed with parsed dict `r`, and `none`
for every exception path (network error, non-JSON payload), which the
source catches and answers with the fallback.  On success the source
overwrites `result['emails']` with the normalized merge of the page-regex
emails, the attachments' `emails_fichier` lists, and the model's own
emails. -/
def analyze_with_claude (data : PostingRecord) (modelResult : Option AnalysisResult) :
    AnalysisResult :=
  match modelResult with
  | none => create_fallback_analysis data
  | some result =>
    let emails_page := extract_emails_regex data.texte_complet
    let emails_fichiers := (data.fichiers_attaches.map Fichier.emails_fichier).flatten
    let all_emails := normalize_and_dedup_emails (emails_page ++ emails_fichiers) result.emails
    { result with emails := all_emails }

/-- Embeds `analyzer.py::analyze_with_gemini` (lines 352-417): the success-path
merge and the fallback are identical to `analyze_with_claude`'s. -/
def analyze_with_gemini (data : PostingRecord) (modelResult : Option AnalysisResult) :
    AnalysisResult :=
  match modelResult with
  | none => create_fallback_analysis data
  | some result =>
    let emails_page := extract_emails_regex data.texte_complet
    let emails_fichiers := (data.fichiers_attaches.map Fichier.emails_fichier).flatten
    let all_emails := normalize_and_dedup_emails (emails_page ++ emails_fichiers) result.emails
    { result with emails := all_emails }

/-! ## scraper.py: document extractors (v1.8) -/

/-- Limit from scraper.py line 50: `MAX_FILE_CONTENT_LENGTH = 5000`. -/
def MAX_FILE_CONTENT_LENGTH : Nat := 5000

/-- Models `BASE_URL = "https://tanmia.ma"`. -/
def BASE_URL : String := "https://tanmia.ma"

/-- scraper.py lines 38-44. -/
def VALID_FILE_EXTENSIONS : List String :=
  [".pdf", ".doc", ".docx", ".xls", ".xlsx", ".ppt", ".pptx", ".zip", ".rar",
   ".odt", ".ods", ".odp"]

/-- What pdfplumber exposes of a PDF byte stream: `none` when
`pdfplumber.open` raises (corrupt bytes, missing library — both caught and
mapped to `("", [])`), otherwise each page's `extract_text()` result. -/
structure PdfDoc where
  pages : Option (List (Option String))
deriving Repr

/-- What python-docx exposes of a DOCX byte stream: `none` when `Document`
raises, otherwise the paragraph texts and the table/row/cell texts. -/
structure DocxDoc where
  content : Option (List String × List (List (List String)))
deriving Repr

/-- What the `antiword` shell-out produces for a legacy DOC byte stream:
`none` when antiword is absent (`FileNotFoundError`) or exits non-zero,
otherwise its stdout. -/
structure DocBin where
  antiwordOut : Option String
deriving Repr

/-- The full text joined from the pages pdfplumber extracted
(`'\n'.join(text_parts)`, keeping at most 20 pages, skipping
`None`/empty `extract_text()` results). -/
def pdfFullText (d : PdfDoc) : String :=
  match d.pages with
  | none => ""
  | some pages =>
    joinSep "\n"
      ((pages.take 20).filterMap (fun pt =>
        match pt with
        | some s => if s = "" then none else some s
        | none => none))

/-- Embeds `scraper.py::parse_pdf_content` (lines 138-167): join page texts,
extract emails from the FULL text, then truncate for the AI. -/
def parse_pdf_content (d : PdfDoc) : String × List String :=
  match d.pages with
  | none => ("", [])
  | some _ =>
    let full_text := pdfFullText d
    let emails := extract_emails_from_text full_text
    if full_text.length > MAX_FILE_CONTENT_LENGTH then
      (takeStr full_text MAX_FILE_CONTENT_LENGTH ++ "...[tronqué]", emails)
    else (full_text, emails)

/-- The full text of a DOCX: paragraph texts whose `strip()` is non-empty,
then table cell texts whose `strip()` is non-empty, joined with `'\n'`. -/
def docxFullText (d : DocxDoc) : String :=
  match d.content with
  | none => ""
  | some (paras, tables) =>
    joinSep "\n"
      (paras.filter (fun p => stripStr p ≠ "")
        ++ (tables.map (fun rows =>
              (rows.map (fun cells => cells.filter (fun c => stripStr c ≠ ""))).flatten)).flatten)

/-- Embeds `scraper.py::parse_docx_content` (lines 170-203): same shape as the
PDF variant — emails from the full text, truncation afterwards. -/
def parse_docx_content (d : DocxDoc) : String × List String :=
  match d.content with
  | none => ("", [])
  | some _ =>
    let full_text := docxFullText d
    let emails := extract_emails_from_text full_text
    if full_text.length > MAX_FILE_CONTENT_LENGTH then
      (takeStr full_text MAX_FILE_CONTENT_LENGTH ++ "...[tronqué]", emails)
    else (full_text, emails)

/-- The text the antiword path recovers (`""` when antiword is missing or
fails, which the source leaves as the initial `full_text = ""`). -/
def docFullText (b : DocBin) : String :=
  match b.antiwordOut with
  | some s => s
  | none => ""

/-- Embeds `scraper.py::parse_doc_content` (lines 206-239): when antiword
produced text, extract emails from the full text then truncate; any
failure degrades to `("", [])`. -/
def parse_doc_content (b : DocBin) : String × List String :=
  let full_text := docFullText b
  if full_text = "" then ("", [])
  else
    let emails := extract_emails_from_text full_text
    if full_text.length > MAX_FILE_CONTENT_LENGTH then
      (takeStr full_text MAX_FILE_CONTENT_LENGTH ++ "...[tronqué]", emails)
    else (full_text, emails)

/-! ## scraper.py: attachment fetcher -/

/-- A downloaded byte stream, seen through each parser's eyes. -/
structure FileBytes where
  asPdf : PdfDoc
  asDocx : DocxDoc
  asDoc : DocBin
deriving Repr

/-- The observable outcome of `session.get(url, ...)`:
`ok` is whether `raise_for_status()` passes; `contentLength` is the
`Content-Length` header parsed as an integer (`none` for an absent or
empty header); `size` is `len(response.content)`, the actual body size in
bytes; `body` is the content itself. -/
structure HttpResponse where
  ok : Bool
  contentLength : Option Nat
  size : Nat
  body : FileBytes
deriving Repr

/-- Embeds `scraper.py::download_and_parse_attachment` (lines 241-294).
`resp = none` models a network exception from `session.get` itself; a
response with `ok = false` makes `raise_for_status` throw; both are caught
and degrade to `("", [])`.  Note the 10 MB check reads only the
`Content-Length` header; when the header is absent the body is parsed
whatever `size` is. -/
def download_and_parse_attachment (file_type : String) (resp : Option HttpResponse) :
    String × List String :=
  if file_type ∉ ["pdf", "doc", "docx"] then ("", [])
  else
    match resp with
    | none => ("", [])
    | some r =>
      if r.ok = false then ("", [])
      else
        let sizeRejected : Bool :=
          match r.contentLength with
          | some n => decide (n > 10 * 1024 * 1024)
          | none => false
        if sizeRejected then ("", [])
        else if file_type = "pdf" then parse_pdf_content r.body.asPdf
        else if file_type = "docx" then parse_docx_content r.body.asDocx
        else if file_type = "doc" then parse_doc_content r.body.asDoc
        else ("", [])

/-! ## scraper.py: attachment discoverer -/

def hexVal (c : Char) : Option Nat :=
  if 48 ≤ c.toNat ∧ c.toNat ≤ 57 then some (c.toNat - 48)
  else if 65 ≤ c.toNat ∧ c.toNat ≤ 70 then some (c.toNat - 55)
  else if 97 ≤ c.toNat ∧ c.toNat ≤ 102 then some (c.toNat - 87)
  else none

/-- Models `urllib.parse.unquote` on ASCII data: decode each valid `%hh` escape,
leave malformed escapes untouched. -/
def percentDecode : List Char → List Char
  | [] => []
  | '%' :: h1 :: h2 :: rest =>
    match hexVal h1, hexVal h2 with
    | some v1, some v2 => Char.ofNat (16 * v1 + v2) :: percentDecode rest
    | _, _ => '%' :: percentDecode (h1 :: h2 :: rest)
  | c :: rest => c :: percentDecode rest

def percentDecodeStr (s : String) : String := String.mk (percentDecode s.data)

/-- Models `urljoin(BASE_URL, href)` for the reference forms that reach this call
(absolute http(s) URLs, scheme-relative `//...`, root-relative `/...`, and
bare relative paths; the base `https://tanmia.ma` has no path, so a bare
relative path gains a single `/`). -/
def urljoin_base (href : String) : String :=
  if startsWithStr href "http://" ∨ startsWithStr href "https://" then href
  else if startsWithStr href "//" then "https:" ++ href
  else if startsWithStr href "/" then BASE_URL ++ href
  else BASE_URL ++ "/" ++ href

/-- An `<a>` element as the discoverer reads it: `href` is
`a_tag.get('href', '')` and `text` is `a_tag.get_text(strip=True)`. -/
structure Anchor where
  href : String
  text : String
deriving DecidableEq, Repr

/-- A parsed HTML page, observed through `soup.select`: the anchors each
CSS selector matches, in document order.  Selectors not listed match
nothing. -/
def Soup := List (String × List Anchor)

def Soup.select (soup : Soup) (sel : String) : List Anchor :=
  match List.lookup sel soup with
  | some anchors => anchors
  | none => []

/-- The selector list of `extract_attachments` (scraper.py lines 321-336):
nine structural selectors, then for every allowed extension the
lower-case and upper-case `a[href$="..."]` forms. -/
def selectorsList : List String :=
  [ "ul.post-attachments a",
    "ul.wp-block-file a",
    "div.wp-block-file a",
    "a.attachment-link",
    "a.wp-block-file__button",
    "div.elementor-widget-attachment a",
    "div.elementor-widget-icon-list a",
    "a.download-link",
    "a[download]" ]
  ++ (VALID_FILE_EXTENSIONS.map (fun ext =>
        [ "a[href$=\"" ++ ext ++ "\"]", "a[href$=\"" ++ upperStr ext ++ "\"]" ])).flatten

/-- The filters applied to an anchor before it is recorded (href
non-empty, not a fragment or `javascript:` pseudo-link, and containing a
known document extension, case-insensitively). -/
def acceptAnchor (a : Anchor) : Bool :=
  decide (a.href ≠ "") && !(startsWithStr a.href "#") && !(startsWithStr a.href "javascript:")
    && VALID_FILE_EXTENSIONS.any (fun ext => containsSubStr (lowerStr a.href) ext)

/-- Build one `fichiers` entry from an accepted anchor (scraper.py lines
356-404).  `fetchCtx url kind` stands for
`download_and_parse_attachment(url, kind, session)` with the run's
session; `parse_content` is the toggle. -/
def buildFichier (parse_content : Bool) (fetchCtx : String → String → String × List String)
    (a : Anchor) : Fichier :=
  let href := a.href
  let nom0 := a.text
  let nom1 :=
    if nom0 = "" ∨ nom0.length < 3 then
      percentDecodeStr (String.mk
        ((((splitOnChar '/' href).getLastD "").data).takeWhile (fun c => c ≠ '?')))
    else nom0
  let nom := stripStr (takeStr nom1 100)
  let hrefLower := lowerStr href
  let type_fichier :=
    match VALID_FILE_EXTENSIONS.find? (fun ext => containsSubStr hrefLower ext) with
    | some ext => ext.drop 1   -- ext.replace('.', '') on a single leading dot
    | none => "autre"
  let url_absolue := urljoin_base href
  if parse_content ∧ type_fichier ∈ ["pdf", "doc", "docx"] then
    let parsed := fetchCtx url_absolue type_fichier
    { nom := nom, url := url_absolue, type := type_fichier,
      contenu_texte := parsed.1, emails_fichier := parsed.2 }
  else
    { nom := nom, url := url_absolue, type := type_fichier,
      contenu_texte := "", emails_fichier := [] }

/-- The nested selector/anchor loops of `extract_attachments`, flattened:
`seen` is the `seen_urls` set of already-recorded raw `href` strings. -/
def extractAttachmentsGo (parse_content : Bool)
    (fetchCtx : String → String → String × List String) :
    List Anchor → List String → List Fichier
  | [], _ => []
  | a :: rest, seen =>
    if a.href = "" ∨ a.href ∈ seen then extractAttachmentsGo parse_content fetchCtx rest seen
    else if startsWithStr a.href "#" ∨ startsWithStr a.href "javascript:" then
      extractAttachmentsGo parse_content fetchCtx rest seen
    else if ¬ (VALID_FILE_EXTENSIONS.any (fun ext => containsSubStr (lowerStr a.href) ext)) then
      extractAttachmentsGo parse_content fetchCtx rest seen
    else
      buildFichier parse_content fetchCtx a
        :: extractAttachmentsGo parse_content fetchCtx rest (a.href :: seen)

/-- Embeds `scraper.py::extract_attachments` (lines 301-410).  Deduplication uses
the raw `href` string (`seen_urls`), checked BEFORE the URL is resolved
with `urljoin`. -/
def extract_attachments (soup : Soup) (parse_content : Bool)
    (fetchCtx : String → String → String × List String) : List Fichier :=
  extractAttachmentsGo parse_content fetchCtx
    ((selectorsList.map soup.select).flatten) []

/-- Reference form for the amended C3 statement: keep the first anchor for
each distinct `href`, dropping later anchors with the same `href`. -/
def keepFirstByHref : List Anchor → List Anchor
  | [] => []
  | a :: rest =>
    a :: keepFirstByHref (rest.filter (fun b => b.href ≠ a.href))
termination_by l => l.length
decreasing_by
  simp only [List.length_cons]
  exact Nat.lt_succ_of_le (List.length_filter_le _ _)

/-! ## utils.py: export-side formatting and the scraped/analysis merge -/

/-- Embeds `utils.py::format_fichiers_attaches` (lines 21-52): returns
`(noms_str, urls_str, count, emails_fichiers_str, nb_parses)`.  The email
string joins `set(all_emails_fichiers)` whose iteration order Python does
not fix; it is modelled as first-occurrence order. -/
def format_fichiers_attaches (fichiers : List Fichier) :
    String × String × Nat × String × Nat :=
  if fichiers = [] then ("", "", 0, "", 0)
  else
    let noms := fichiers.map Fichier.nom
    let urls := fichiers.map Fichier.url
    let all_emails_fichiers := (fichiers.map Fichier.emails_fichier).flatten
    let nb_parses := (fichiers.filter (fun f => f.contenu_texte ≠ "")).length
    (joinSep ", " noms,
     joinSep "\n" urls,
     fichiers.length,
     joinSep ", " all_emails_fichiers.dedup,
     nb_parses)

/-- Embeds `utils.py::format_email_column` (lines 253-258):
`", ".join(sorted(set(emails)))`. -/
def format_email_column (emails : List String) : String :=
  if emails = [] then ""
  else joinSep ", " (List.insertionSort strLe emails.dedup)

/-- Embeds `utils.py::format_keywords_column` (lines 261-266). -/
def format_keywords_column (keywords : List String) : String :=
  if keywords = [] then ""
  else joinSep ", " (keywords.take 8)

/-- One output row of `merge_analysis_results`. -/
structure MergedRow where
  URL : String
  Titre : String
  Date : String
  Organisation : String
  Email : String
  Secteur : String
  /-- the Python dict key is `'Type'`, a reserved word here -/
  TypeCol : String
  Localisation : String
  Resume : String
  MotsCles : String
  Fichiers : String
  LiensFichiers : String
  NbFichiers : Nat
  EmailsFichiers : String
  NbParses : Nat
deriving DecidableEq, Repr

/-- The body of `merge_analysis_results`' loop (utils.py lines 294-329)
for one `(scraped, analysis)` pair. -/
def merged_item (scraped : PostingRecord) (analysis : AnalysisResult) : MergedRow :=
  let fichiers := scraped.fichiers_attaches
  let formatted := format_fichiers_attaches fichiers
  let emails_page := analysis.emails
  let emails_from_files := scraped.emails_from_files
  let all_emails := (emails_page ++ emails_from_files).dedup
  { URL := scraped.url
    Titre := scraped.titre
    Date := scraped.date
    Organisation := analysis.organisation
    Email := format_email_column all_emails
    Secteur := analysis.secteur
    TypeCol := analysis.type_opportunite
    Localisation := analysis.localisation
    Resume := analysis.resume
    MotsCles := format_keywords_column analysis.mots_cles
    Fichiers := formatted.1
    LiensFichiers := formatted.2.1
    NbFichiers := formatted.2.2.1
    EmailsFichiers := formatted.2.2.2.1
    NbParses := formatted.2.2.2.2 }

/-- Embeds `utils.py::merge_analysis_results` (lines 283-331):
`for scraped, analysis in zip(scraped_data, analysis_results)` — pairs are
taken positionally, and `zip` stops at the shorter list. -/
def merge_analysis_results :
    List PostingRecord → List AnalysisResult → List MergedRow
  | scraped :: ss, analysis :: as_ =>
    merged_item scraped analysis :: merge_analysis_results ss as_
  | _, _ => []

/-! ## Concrete inputs used by witnesses and counterexamples -/

/-- A PDF view with no content (for responses whose body is irrelevant). -/
def emptyBody : FileBytes :=
  { asPdf := { pages := none }, asDocx := { content := none }, asDoc := { antiwordOut := none } }

/-- An 11 MB response with no `Content-Length` header whose PDF content
holds one email. -/
def c4resp : HttpResponse :=
  { ok := true, contentLength := none, size := 11534336,
    body := { asPdf := { pages := some [some "contact a@b.ma"] },
              asDocx := { content := none }, asDoc := { antiwordOut := none } } }

/-- A response declaring a 20 MB `Content-Length`. -/
def c4respBig : HttpResponse :=
  { ok := true, contentLength := some 20971520, size := 0, body := emptyBody }

/-- Scraped records and one analysis, for the C10 witness. -/
def wScr1 : PostingRecord :=
  { url := "https://tanmia.ma/p1", titre := "Premier", organisation := "Org1", date := "d1",
    texte_complet := "Contact: web@alcs.ma", fichiers_attaches := [],
    emails_from_files := ["tdr@alcs.ma"] }

def wScr2 : PostingRecord :=
  { url := "https://tanmia.ma/p2", titre := "Deuxième", organisation := "Org2", date := "d2",
    texte_complet := "rien", fichiers_attaches := [], emails_from_files := [] }

def wAna : AnalysisResult :=
  { organisation := "Org1", emails := ["page@test.org"], secteur := "Éducation",
    type_opportunite := "Appel d'offres", localisation := "Rabat", resume := "R",
    mots_cles := ["M&E"] }

/-- The two-anchor page for the C3 counterexample: one root-relative and
one absolute href, resolving to the same absolute URL, both matched by the
generic `.pdf` suffix selector. -/
def c3soup : Soup :=
  [("a[href$=\".pdf\"]",
    [ { href := "/doc/a.pdf", text := "Doc One" },
      { href := "https://tanmia.ma/doc/a.pdf", text := "Doc Two" } ])]

/-- A record whose page text holds an email the page regex extracts but
the consolidation filter rejects (`%` is allowed by `[A-Za-z0-9._%+-]`
but not by `[\w\.\-\+]`). -/
def c1data : PostingRecord :=
  { url := "https://tanmia.ma/p", titre := "T", organisation := "O", date := "d",
    texte_complet := "Contact: a%b@x.ma", fichiers_attaches := [],
    emails_from_files := [] }

/-- A successful model response reporting no emails of its own. -/
def c1model : AnalysisResult :=
  { organisation := "O", emails := [], secteur := "Autre",
    type_opportunite := "Offre", localisation := "Non spécifié", resume := "r",
    mots_cles := [] }

/-- A 5006-character text whose only email sits after the 5000-character
content cap. -/
def longText : String :=
  String.mk (List.replicate 5000 '~' ++ ['x', '@', 'y', '.', 'm', 'a'])

/-- A PDF whose single page extracts to `longText`. -/
def pdfLongDoc : PdfDoc := { pages := some [some longText] }

/-- A DOCX whose single paragraph is `longText` (no tables). -/
def docxLongDoc : DocxDoc := { content := some ([longText], []) }

/-- A legacy DOC for which antiword outputs `longText`. -/
def docLongBin : DocBin := { antiwordOut := some longText }

/-! # Theorems -/

/-! ## C6 -/

/-- C6: the Email Recognizer is a pure deterministic function — calling it
twice on the same text yields the same result, and empty input (Python's
`if not text`, which also covers `None`) yields the empty list rather than
an error.  Purity and totality hold by construction of the embedding; the
theorem records the determinism equation and the empty-input case for both
copies of the recognizer. -/
theorem extract_emails_deterministic_total :
    (∀ t : String, extract_emails_from_text t = extract_emails_from_text t)
    ∧ extract_emails_from_text "" = []
    ∧ (∀ t : String, extract_emails_regex t = extract_emails_regex t)
    ∧ extract_emails_regex "" = [] :=
  ⟨fun _ => rfl, rfl, fun _ => rfl, rfl⟩

/-! ## C9 -/

/-- C9: on `"Contact: web@alcs.ma or tdr [at] alcs [dot] ma"` the Email
Recognizer returns exactly the set `{"web@alcs.ma", "tdr@alcs.ma"}`
(pattern 1 finds the plain address, pattern 4 the bracket-obfuscated
one). -/
theorem extract_emails_obfuscated_example :
    (extract_emails_from_text "Contact: web@alcs.ma or tdr [at] alcs [dot] ma").toFinset
      = {"web@alcs.ma", "tdr@alcs.ma"} := by
  decide

/-! ## C8 -/

/-- C8: the Attachment Fetcher returns empty text and an empty email list
for every kind outside {pdf, doc, docx} — the kind check precedes the
download, so no extraction happens — and the discoverer leaves such an
attachment metadata-only (`contenu_texte = ""`, `emails_fichier = []`). -/
theorem download_unparsable_kind_empty (ft : String) (resp : Option HttpResponse)
    (h : ft ∉ ["pdf", "doc", "docx"]) :
    download_and_parse_attachment ft resp = ("", [])
    ∧ ∀ (pc : Bool) (fetchCtx : String → String → String × List String) (a : Anchor),
        (buildFichier pc fetchCtx a).type ∉ ["pdf", "doc", "docx"] →
        (buildFichier pc fetchCtx a).contenu_texte = ""
          ∧ (buildFichier pc fetchCtx a).emails_fichier = [] := by
  constructor
  · simp only [download_and_parse_attachment, if_pos h]
  · intro pc fetchCtx a htype
    unfold buildFichier at htype ⊢
    dsimp only at htype ⊢
    split
    · next hcond =>
        rw [if_pos hcond] at htype
        exact absurd hcond.2 htype
    · exact ⟨rfl, rfl⟩

/-- Witness for C8 at kind `"xlsx"` and at an anchor linking a `.zip`. -/
theorem download_unparsable_kind_empty_witness :
    download_and_parse_attachment "xlsx" (some c4resp) = ("", [])
    ∧ (buildFichier true (fun _ _ => ("boom", ["x@y.ma"]))
        { href := "/f/archive.zip", text := "Archive Dossier" }).contenu_texte = "" := by
  have h := download_unparsable_kind_empty "xlsx" (some c4resp) (by decide)
  refine ⟨h.1, ?_⟩
  exact (h.2 true (fun _ _ => ("boom", ["x@y.ma"]))
    { href := "/f/archive.zip", text := "Archive Dossier" } (by decide)).1

/-! ## C4 -/

/-- C4 counterexample: a download with NO `Content-Length` header and an
11 MB body is parsed in full — the code never checks the actual body size,
so the claimed post-download enforcement ("discarding oversized bodies")
does not exist. -/
theorem content_length_absent_no_cap_counterexample :
    c4resp.contentLength = none
    ∧ c4resp.size > 10 * 1024 * 1024
    ∧ download_and_parse_attachment "pdf" (some c4resp) = ("contact a@b.ma", ["a@b.ma"])
    ∧ download_and_parse_attachment "pdf" (some c4resp) ≠ ("", []) := by
  refine ⟨rfl, by decide, by decide, by decide⟩

/-- C4 amended: the 10 MB cap is enforced only through the
`Content-Length` header.  A declared size above the cap yields `("", [])`
without touching the body; when the header is absent the body is
downloaded and parsed whatever its size — the outcome is independent of
the actual body size. -/
theorem content_length_cap_header_only (ft : String) (r : HttpResponse) (n : Nat) :
    (r.contentLength = some n → n > 10 * 1024 * 1024 →
      download_and_parse_attachment ft (some r) = ("", []))
    ∧ (r.contentLength = none → ∀ m,
        download_and_parse_attachment ft (some r)
          = download_and_parse_attachment ft (some { r with size := m })) := by
  constructor
  · intro hcl hn
    unfold download_and_parse_attachment
    split
    · rfl
    · simp only [hcl]
      split
      · rfl
      · simp only [decide_eq_true_eq, if_pos hn]
  · intro _ m
    cases r
    rfl

/-- Witness for C4 amended: a declared 20 MB PDF is rejected, and with the
header absent the result does not depend on the body size. -/
theorem content_length_cap_header_only_witness :
    download_and_parse_attachment "pdf" (some c4respBig) = ("", [])
    ∧ download_and_parse_attachment "pdf" (some c4resp)
        = download_and_parse_attachment "pdf" (some { c4resp with size := 5 }) := by
  constructor
  · exact (content_length_cap_header_only "pdf" c4respBig 20971520).1 rfl (by decide)
  · exact (content_length_cap_header_only "pdf" c4resp 0).2 rfl 5

/-! ## C10 -/

theorem merge_length (a : List PostingRecord) (b : List AnalysisResult) :
    (merge_analysis_results a b).length = min a.length b.length := by
  induction a generalizing b with
  | nil => cases b <;> simp [merge_analysis_results]
  | cons x xs ih =>
    cases b with
    | nil => simp [merge_analysis_results]
    | cons y ys =>
      simp [merge_analysis_results, ih, Nat.succ_min_succ]

theorem merge_getElem (a : List PostingRecord) (b : List AnalysisResult) :
    ∀ (i : Nat) (x : PostingRecord) (y : AnalysisResult),
      a[i]? = some x → b[i]? = some y →
      (merge_analysis_results a b)[i]? = some (merged_item x y) := by
  induction a generalizing b with
  | nil => intro i x y hx; simp at hx
  | cons a0 as ih =>
    intro i x y hx hy
    cases b with
    | nil => simp at hy
    | cons b0 bs =>
      cases i with
      | zero =>
        simp only [List.getElem?_cons_zero, Option.some.injEq] at hx hy
        simp [merge_analysis_results, hx, hy]
      | succ j =>
        simp only [List.getElem?_cons_succ] at hx hy
        simpa [merge_analysis_results] using ih bs j x y hx hy

theorem merge_take (a : List PostingRecord) (b : List AnalysisResult) :
    merge_analysis_results a b
      = merge_analysis_results (a.take b.length) (b.take a.length) := by
  induction a generalizing b with
  | nil => cases b <;> simp [merge_analysis_results]
  | cons x xs ih =>
    cases b with
    | nil => simp [merge_analysis_results]
    | cons y ys =>
      simp only [List.length_cons, List.take_succ_cons, merge_analysis_results]
      exact congrArg _ (ih ys)

/-- C10: `merge_analysis_results` pairs scraped records with analysis
results strictly by position (`zip` semantics): the output has exactly
`min` of the two lengths, row `i` merges exactly `scraped[i]` with
`analysis[i]`, and the trailing elements of the longer list are silently
ignored (the output only depends on the first `min` elements of each). -/
theorem merge_analysis_results_positional (a : List PostingRecord) (b : List AnalysisResult) :
    (merge_analysis_results a b).length = min a.length b.length
    ∧ (∀ (i : Nat) (x : PostingRecord) (y : AnalysisResult),
        a[i]? = some x → b[i]? = some y →
        (merge_analysis_results a b)[i]? = some (merged_item x y))
    ∧ merge_analysis_results a b
        = merge_analysis_results (a.take b.length) (b.take a.length) :=
  ⟨merge_length a b, merge_getElem a b, merge_take a b⟩

/-- Witness for C10: two scraped records and one analysis merge to a
single row, built from the first record and the analysis. -/
theorem merge_analysis_results_positional_witness :
    (merge_analysis_results [wScr1, wScr2] [wAna]).length = 1
    ∧ (merge_analysis_results [wScr1, wScr2] [wAna])[0]? = some (merged_item wScr1 wAna) := by
  have h := merge_analysis_results_positional [wScr1, wScr2] [wAna]
  exact ⟨by simpa using h.1, h.2.1 0 wScr1 wAna rfl rfl⟩

/-! ## C5 -/

/-- C5: when the model call fails, the fallback `AnalysisResult` is
deterministic and total (the embedding is a total function of the
`PostingRecord`, so no field access can raise): the organisation is copied
from the record, emails is EXACTLY the union of the page-regex emails and
the `emails_from_files` entries (membership both ways: nothing else gets
in), the sector/opportunity-type/location sentinels are `"Autre"` /
`"Non déterminé"` / `"Non spécifié"`, the keyword list is empty, and the
summary is the page text truncated at 200 characters (with `"..."`), with
the `(n fichier(s), m parsé(s))` annotation appended when attachments
exist. -/
theorem create_fallback_analysis_spec (data : PostingRecord) :
    (create_fallback_analysis data).organisation = data.organisation
    ∧ (create_fallback_analysis data).secteur = "Autre"
    ∧ (create_fallback_analysis data).type_opportunite = "Non déterminé"
    ∧ (create_fallback_analysis data).localisation = "Non spécifié"
    ∧ (create_fallback_analysis data).mots_cles = []
    ∧ (∀ e, e ∈ (create_fallback_analysis data).emails
        ↔ e ∈ extract_emails_regex data.texte_complet ∨ e ∈ data.emails_from_files)
    ∧ (create_fallback_analysis data).resume
        = (if data.fichiers_attaches ≠ [] then
            (if data.texte_complet.length > 200 then
              takeStr data.texte_complet 200 ++ "..." else data.texte_complet)
              ++ fallback_resume_note data.fichiers_attaches
          else
            (if data.texte_complet.length > 200 then
              takeStr data.texte_complet 200 ++ "..." else data.texte_complet)) := by
  refine ⟨rfl, rfl, rfl, rfl, rfl, ?_, rfl⟩
  intro e
  exact Iff.trans List.mem_dedup List.mem_append

/-- Witness for C5 at a record with one page email, one file email and
one parsed attachment; the third conjunct exercises the converse
direction of the union (no extra email is present). -/
theorem create_fallback_analysis_spec_witness :
    "web@alcs.ma" ∈ (create_fallback_analysis wScr1).emails
    ∧ "tdr@alcs.ma" ∈ (create_fallback_analysis wScr1).emails
    ∧ "autre@x.ma" ∉ (create_fallback_analysis wScr1).emails
    ∧ (create_fallback_analysis wScr1).secteur = "Autre"
    ∧ (create_fallback_analysis wScr1).resume = "Contact: web@alcs.ma" := by
  have h := create_fallback_analysis_spec wScr1
  refine ⟨(h.2.2.2.2.2.1 "web@alcs.ma").mpr (Or.inl (by decide)),
    (h.2.2.2.2.2.1 "tdr@alcs.ma").mpr (Or.inr (by decide)), ?_, h.2.1, ?_⟩
  · intro hmem
    rcases (h.2.2.2.2.2.1 "autre@x.ma").mp hmem with hc | hc
    · exact absurd hc (by decide)
    · exact absurd hc (by decide)
  · rw [h.2.2.2.2.2.2]
    decide

/-! ## C3 -/

theorem keepFirstByHref_cons (a : Anchor) (l : List Anchor) :
    keepFirstByHref (a :: l)
      = a :: keepFirstByHref (l.filter (fun b => b.href ≠ a.href)) := by
  simp [keepFirstByHref]

theorem mem_keepFirstByHref {x : Anchor} :
    ∀ {l : List Anchor}, x ∈ keepFirstByHref l → x ∈ l
  | [], h => by simp [keepFirstByHref] at h
  | a :: l, h => by
    rw [keepFirstByHref_cons] at h
    rcases List.mem_cons.mp h with heq | hmem
    · exact heq ▸ List.mem_cons_self a l
    · exact List.mem_cons_of_mem a (List.mem_of_mem_filter (mem_keepFirstByHref hmem))
termination_by l => l.length
decreasing_by
  simp only [List.length_cons]
  exact Nat.lt_succ_of_le (List.length_filter_le _ _)

theorem keepFirstByHref_hrefs_nodup :
    ∀ l : List Anchor, ((keepFirstByHref l).map Anchor.href).Nodup
  | [] => by simp [keepFirstByHref]
  | a :: l => by
    rw [keepFirstByHref_cons]
    simp only [List.map_cons, List.nodup_cons]
    refine ⟨?_, keepFirstByHref_hrefs_nodup (l.filter (fun b => b.href ≠ a.href))⟩
    intro hmem
    rcases List.mem_map.mp hmem with ⟨b, hb, hbe⟩
    have := List.of_mem_filter (mem_keepFirstByHref hb)
    simp only [decide_eq_true_eq] at this
    exact this hbe
termination_by l => l.length
decreasing_by
  simp only [List.length_cons]
  exact Nat.lt_succ_of_le (List.length_filter_le _ _)

theorem strContains_of_mem {l : List String} {a : String} (h : a ∈ l) :
    l.contains a = true := by simpa using h

theorem strContains_of_not_mem {l : List String} {a : String} (h : a ∉ l) :
    l.contains a = false := by simpa using h

theorem extractAttachmentsGo_characterization (pc : Bool)
    (fetchCtx : String → String → String × List String) :
    ∀ (l : List Anchor) (seen : List String),
      extractAttachmentsGo pc fetchCtx l seen
        = (keepFirstByHref (l.filter
            (fun a => acceptAnchor a && !seen.contains a.href))).map (buildFichier pc fetchCtx)
  | [], _ => by simp [extractAttachmentsGo, keepFirstByHref]
  | a :: l, seen => by
    by_cases h1 : a.href = "" ∨ a.href ∈ seen
    · have hdrop : (acceptAnchor a && !seen.contains a.href) = false := by
        rcases h1 with he | hs
        · have : acceptAnchor a = false := by simp [acceptAnchor, he]
          rw [this, Bool.false_and]
        · rw [strContains_of_mem hs, Bool.not_true, Bool.and_false]
      simp only [extractAttachmentsGo]
      rw [if_pos h1, List.filter_cons_of_neg (by rw [hdrop]; exact Bool.false_ne_true),
        extractAttachmentsGo_characterization pc fetchCtx l seen]
    · push_neg at h1
      by_cases h2 : startsWithStr a.href "#" ∨ startsWithStr a.href "javascript:"
      · have hdrop : (acceptAnchor a && !seen.contains a.href) = false := by
          have : acceptAnchor a = false := by
            rcases h2 with hs | hs <;> simp [acceptAnchor, hs]
          rw [this, Bool.false_and]
        simp only [extractAttachmentsGo]
        rw [if_neg (by simpa using h1), if_pos h2,
          List.filter_cons_of_neg (by rw [hdrop]; exact Bool.false_ne_true),
          extractAttachmentsGo_characterization pc fetchCtx l seen]
      · push_neg at h2
        have hs1 : startsWithStr a.href "#" = false := by simpa using h2.1
        have hs2 : startsWithStr a.href "javascript:" = false := by simpa using h2.2
        by_cases h3 : VALID_FILE_EXTENSIONS.any
            (fun ext => containsSubStr (lowerStr a.href) ext)
        · have hc : seen.contains a.href = false := strContains_of_not_mem h1.2
          have hacc : (acceptAnchor a && !seen.contains a.href) = true := by
            have ha : acceptAnchor a = true := by
              simp [acceptAnchor, h1.1, hs1, hs2, h3]
            rw [ha, hc, Bool.not_false, Bool.true_and]
          simp only [extractAttachmentsGo]
          rw [if_neg (by simpa using h1), if_neg (by simp [hs1, hs2]),
            if_neg (by simpa using h3),
            List.filter_cons_of_pos (by exact hacc), keepFirstByHref_cons, List.map_cons,
            extractAttachmentsGo_characterization pc fetchCtx l (a.href :: seen)]
          congr 1
          rw [List.filter_filter]
          refine congrArg _ (congrArg keepFirstByHref (List.filter_congr ?_))
          intro b _
          by_cases hb : b.href = a.href <;> by_cases hbs : b.href ∈ seen <;>
            simp [hb, hbs]
        · have hdrop : (acceptAnchor a && !seen.contains a.href) = false := by
            have : acceptAnchor a = false := by simp [acceptAnchor, h3]
            rw [this, Bool.false_and]
          simp only [extractAttachmentsGo]
          rw [if_neg (by simpa using h1), if_neg (by simp [hs1, hs2]),
            if_pos (by simpa using h3),
            List.filter_cons_of_neg (by rw [hdrop]; exact Bool.false_ne_true),
            extractAttachmentsGo_characterization pc fetchCtx l seen]

/-- C3 counterexample: two anchors whose different raw hrefs resolve (via
`urljoin`) to the same absolute URL yield TWO Attachments for that URL —
the discoverer deduplicates on the raw href string before resolving, not
on the resolved URL as claimed. -/
theorem extract_attachments_same_resolved_url_counterexample :
    urljoin_base "/doc/a.pdf" = urljoin_base "https://tanmia.ma/doc/a.pdf"
    ∧ ((extract_attachments c3soup false (fun _ _ => ("", []))).filter
        (fun f => f.url = "https://tanmia.ma/doc/a.pdf")).length = 2 := by
  constructor
  · decide
  · decide

/-- C3 amended: `extract_attachments` deduplicates by the raw `href`
attribute string, first occurrence winning, regardless of which selector
matched the anchor: its output is exactly one Attachment per distinct
accepted href (in particular two anchors with the very same href collapse
to one), while different hrefs resolving to the same absolute URL do NOT
collapse (see the counterexample). -/
theorem extract_attachments_dedup_by_raw_href (soup : Soup) (pc : Bool)
    (fetchCtx : String → String → String × List String) :
    extract_attachments soup pc fetchCtx
      = (keepFirstByHref (((selectorsList.map soup.select).flatten).filter
          acceptAnchor)).map (buildFichier pc fetchCtx)
    ∧ ((keepFirstByHref (((selectorsList.map soup.select).flatten).filter
          acceptAnchor)).map Anchor.href).Nodup := by
  constructor
  · rw [extract_attachments, extractAttachmentsGo_characterization]
    refine congrArg _ (congrArg keepFirstByHref (List.filter_congr ?_))
    intro b _
    simp [acceptAnchor]
  · exact keepFirstByHref_hrefs_nodup _

/-! ## Character and string-order lemmas -/

theorem char_toNat_inj {a b : Char} (h : a.toNat = b.toNat) : a = b :=
  Char.ext (UInt32.ext h)

theorem char_toNat_ofNat_valid (n : Nat) (h : n.isValidChar) :
    (Char.ofNat n).toNat = n := by
  unfold Char.ofNat
  rw [dif_pos h]
  rfl

theorem asciiLower_def (c : Char) :
    asciiLower c = if 65 ≤ c.toNat ∧ c.toNat ≤ 90 then Char.ofNat (c.toNat + 32) else c := rfl

theorem asciiLower_toNat_of_upper {c : Char} (h : 65 ≤ c.toNat ∧ c.toNat ≤ 90) :
    (asciiLower c).toNat = c.toNat + 32 := by
  rw [asciiLower_def, if_pos h]
  exact char_toNat_ofNat_valid _ (Or.inl (by omega))

theorem asciiLower_eq_self_of_not_upper {c : Char}
    (h : ¬(65 ≤ c.toNat ∧ c.toNat ≤ 90)) : asciiLower c = c := by
  rw [asciiLower_def, if_neg h]

theorem asciiLower_idem (c : Char) : asciiLower (asciiLower c) = asciiLower c := by
  by_cases h : 65 ≤ c.toNat ∧ c.toNat ≤ 90
  · have ht := asciiLower_toNat_of_upper h
    exact asciiLower_eq_self_of_not_upper (by omega)
  · rw [asciiLower_eq_self_of_not_upper h, asciiLower_eq_self_of_not_upper h]

theorem charEq_false_of_toNat_ne {x c : Char} (h : x.toNat ≠ c.toNat) :
    (x == c) = false :=
  beq_eq_false_iff_ne.mpr (fun he => h (he ▸ rfl))

theorem isSpaceC_false_of_toNat_large {x : Char} (h : 33 ≤ x.toNat) :
    isSpaceC x = false := by
  have h32 : (' ' : Char).toNat = 32 := rfl
  have h9 : ('\t' : Char).toNat = 9 := rfl
  have h10 : ('\n' : Char).toNat = 10 := rfl
  have h13 : ('\r' : Char).toNat = 13 := rfl
  have h11 : ('\x0b' : Char).toNat = 11 := rfl
  have h12 : ('\x0c' : Char).toNat = 12 := rfl
  unfold isSpaceC
  rw [charEq_false_of_toNat_ne (by omega), charEq_false_of_toNat_ne (by omega),
    charEq_false_of_toNat_ne (by omega), charEq_false_of_toNat_ne (by omega),
    charEq_false_of_toNat_ne (by omega), charEq_false_of_toNat_ne (by omega)]
  rfl

theorem isSpaceC_asciiLower (c : Char) : isSpaceC (asciiLower c) = isSpaceC c := by
  by_cases h : 65 ≤ c.toNat ∧ c.toNat ≤ 90
  · have ht := asciiLower_toNat_of_upper h
    rw [isSpaceC_false_of_toNat_large (by omega), isSpaceC_false_of_toNat_large (by omega)]
  · rw [asciiLower_eq_self_of_not_upper h]

theorem asciiLower_eq_at {c : Char} (h : asciiLower c = '@') : c = '@' := by
  by_cases hu : 65 ≤ c.toNat ∧ c.toNat ≤ 90
  · have ht := asciiLower_toNat_of_upper hu
    have h64 : ('@' : Char).toNat = 64 := rfl
    have := congrArg Char.toNat h
    omega
  · rwa [asciiLower_eq_self_of_not_upper hu] at h

/-! ### The code-point order used by `sorted` -/

theorem strLtChars_irrefl : ∀ l : List Char, strLtChars l l = false
  | [] => rfl
  | a :: as => by
    simp only [strLtChars, Nat.lt_irrefl, if_false]
    exact strLtChars_irrefl as

theorem strLtChars_cons_iff {a b : Char} {as bs : List Char} :
    strLtChars (a :: as) (b :: bs) = true ↔
      a.toNat < b.toNat ∨ (a.toNat = b.toNat ∧ strLtChars as bs = true) := by
  simp only [strLtChars]
  by_cases h1 : a.toNat < b.toNat
  · simp [h1]
  · rw [if_neg h1]
    by_cases h2 : b.toNat < a.toNat
    · rw [if_pos h2]
      constructor
      · intro hfalse
        exact absurd hfalse (by simp)
      · rintro (hlt | ⟨heq, _⟩) <;> omega
    · rw [if_neg h2]
      constructor
      · intro ht
        exact Or.inr ⟨by omega, ht⟩
      · rintro (hlt | ⟨_, ht⟩)
        · omega
        · exact ht

theorem strLtChars_trans : ∀ x y z : List Char,
    strLtChars x y = true → strLtChars y z = true → strLtChars x z = true
  | x, [], _, hxy, _ => by simp [strLtChars] at hxy
  | _, _ :: _, [], _, hyz => by simp [strLtChars] at hyz
  | [], _ :: _, _ :: _, _, _ => rfl
  | x0 :: xs, y0 :: ys, z0 :: zs, hxy, hyz => by
    rw [strLtChars_cons_iff] at hxy hyz ⊢
    rcases hxy with h | ⟨he, ht⟩ <;> rcases hyz with h2 | ⟨he2, ht2⟩
    · exact Or.inl (by omega)
    · exact Or.inl (by omega)
    · exact Or.inl (by omega)
    · exact Or.inr ⟨by omega, strLtChars_trans xs ys zs ht ht2⟩

theorem strLtChars_trichotomy : ∀ x y : List Char,
    strLtChars x y = true ∨ x = y ∨ strLtChars y x = true
  | [], [] => Or.inr (Or.inl rfl)
  | [], _ :: _ => Or.inl rfl
  | _ :: _, [] => Or.inr (Or.inr rfl)
  | x0 :: xs, y0 :: ys => by
    rcases Nat.lt_trichotomy x0.toNat y0.toNat with h | h | h
    · exact Or.inl (strLtChars_cons_iff.mpr (Or.inl h))
    · have hx : x0 = y0 := char_toNat_inj h
      subst hx
      rcases strLtChars_trichotomy xs ys with h2 | h2 | h2
      · exact Or.inl (strLtChars_cons_iff.mpr (Or.inr ⟨rfl, h2⟩))
      · exact Or.inr (Or.inl (by rw [h2]))
      · exact Or.inr (Or.inr (strLtChars_cons_iff.mpr (Or.inr ⟨rfl, h2⟩)))
    · exact Or.inr (Or.inr (strLtChars_cons_iff.mpr (Or.inl h)))

theorem strLtChars_asymm {x y : List Char} (h : strLtChars x y = true) :
    strLtChars y x = false := by
  cases hyx : strLtChars y x
  · rfl
  · have := strLtChars_trans x y x h hyx
    rw [strLtChars_irrefl] at this
    exact absurd this (by simp)

instance : IsTotal String strLe where
  total a b := by
    cases h : strLtChars b.data a.data
    · exact Or.inl h
    · exact Or.inr (strLtChars_asymm h)

instance : IsTrans String strLe where
  trans a b c hab hbc := by
    unfold strLe at hab hbc ⊢
    by_contra hca
    rw [Bool.not_eq_false] at hca
    rcases strLtChars_trichotomy a.data b.data with h | h | h
    · have hcb := strLtChars_trans _ _ _ hca h
      rw [hbc] at hcb
      exact absurd hcb (by simp)
    · rw [← h] at hbc
      rw [hbc] at hca
      exact absurd hca (by simp)
    · rw [h] at hab
      exact absurd hab (by simp)

instance : IsAntisymm String strLe where
  antisymm a b hab hba := by
    unfold strLe at hab hba
    rcases strLtChars_trichotomy a.data b.data with h | h | h
    · rw [h] at hba
      exact absurd hba (by simp)
    · cases a
      cases b
      exact congrArg String.mk h
    · rw [h] at hab
      exact absurd hab (by simp)

/-! ### `strip`/`lower` algebra and the normalization filter -/

theorem dropWhile_idem (p : Char → Bool) :
    ∀ l : List Char, (l.dropWhile p).dropWhile p = l.dropWhile p
  | [] => rfl
  | c :: t => by
    by_cases hc : p c
    · rw [List.dropWhile_cons_of_pos hc]
      exact dropWhile_idem p t
    · rw [List.dropWhile_cons_of_neg hc, List.dropWhile_cons_of_neg hc]

theorem dropWhile_eq_self_of_prefixed {p : Char → Bool} :
    ∀ {m' m : List Char}, m' <+: m → m.dropWhile p = m → m'.dropWhile p = m'
  | [], _, _, _ => rfl
  | c :: t, m, hpre, hm => by
    obtain ⟨rest, hrest⟩ := hpre
    subst hrest
    rw [List.cons_append] at hm
    have hc : p c = false := by
      cases hpc : p c
      · rfl
      · rw [List.dropWhile_cons_of_pos hpc] at hm
        have hle := List.Sublist.length_le (List.dropWhile_sublist (l := t ++ rest) (p := p))
        have hlen := congrArg List.length hm
        simp only [List.length_append, List.length_cons] at hle hlen
        omega
    rw [List.dropWhile_cons_of_neg (by simp [hc])]

theorem stripChars_dropWhile_self (l : List Char) :
    (stripChars l).dropWhile isSpaceC = stripChars l := by
  have hm : (l.dropWhile isSpaceC).dropWhile isSpaceC = l.dropWhile isSpaceC :=
    dropWhile_idem _ l
  refine dropWhile_eq_self_of_prefixed ?_ hm
  rw [stripChars, ← List.reverse_suffix]
  simp only [List.reverse_reverse]
  exact List.dropWhile_suffix _

theorem stripChars_idem (l : List Char) : stripChars (stripChars l) = stripChars l := by
  calc stripChars (stripChars l)
      = (((stripChars l).dropWhile isSpaceC).reverse.dropWhile isSpaceC).reverse := rfl
    _ = ((stripChars l).reverse.dropWhile isSpaceC).reverse := by
        rw [stripChars_dropWhile_self]
    _ = ((((l.dropWhile isSpaceC).reverse.dropWhile isSpaceC).reverse).reverse.dropWhile
          isSpaceC).reverse := rfl
    _ = (((l.dropWhile isSpaceC).reverse.dropWhile isSpaceC).dropWhile isSpaceC).reverse := by
        rw [List.reverse_reverse]
    _ = ((l.dropWhile isSpaceC).reverse.dropWhile isSpaceC).reverse := by
        rw [dropWhile_idem]
    _ = stripChars l := rfl

theorem dropWhile_map_asciiLower :
    ∀ l : List Char, (l.map asciiLower).dropWhile isSpaceC
      = (l.dropWhile isSpaceC).map asciiLower
  | [] => rfl
  | c :: t => by
    cases hc : isSpaceC c
    · rw [List.map_cons, List.dropWhile_cons_of_neg (by rw [isSpaceC_asciiLower, hc]; simp),
        List.dropWhile_cons_of_neg (by simp [hc]), List.map_cons]
    · rw [List.map_cons, List.dropWhile_cons_of_pos (by rw [isSpaceC_asciiLower]; exact hc),
        List.dropWhile_cons_of_pos hc]
      exact dropWhile_map_asciiLower t

theorem stripChars_map_asciiLower (l : List Char) :
    stripChars (l.map asciiLower) = (stripChars l).map asciiLower := by
  rw [stripChars, stripChars, dropWhile_map_asciiLower, ← List.map_reverse,
    dropWhile_map_asciiLower, ← List.map_reverse]

theorem map_asciiLower_idem : ∀ l : List Char,
    (l.map asciiLower).map asciiLower = l.map asciiLower
  | [] => rfl
  | c :: t => by
    simp only [List.map_cons, asciiLower_idem]
    rw [map_asciiLower_idem t]

theorem normEmail_idem (e : String) : normEmail (normEmail e) = normEmail e := by
  unfold normEmail
  refine congrArg String.mk ?_
  show (stripChars ((stripChars e.data).map asciiLower)).map asciiLower
    = (stripChars e.data).map asciiLower
  rw [stripChars_map_asciiLower, stripChars_idem, map_asciiLower_idem]

theorem stripChars_subset {l : List Char} : ∀ {x : Char}, x ∈ stripChars l → x ∈ l := by
  intro x hx
  rw [stripChars] at hx
  rw [List.mem_reverse] at hx
  have h1 := (List.dropWhile_sublist (l := (l.dropWhile isSpaceC).reverse)
    (p := isSpaceC)).subset hx
  rw [List.mem_reverse] at h1
  exact (List.dropWhile_sublist (l := l) (p := isSpaceC)).subset h1

theorem splitAtFirst_eq {c : Char} :
    ∀ {xs l r : List Char}, splitAtFirst c xs = some (l, r) → xs = l ++ c :: r := by
  intro xs
  induction xs with
  | nil => intro l r h; simp [splitAtFirst] at h
  | cons x t ih =>
    intro l r h
    rw [splitAtFirst] at h
    by_cases hx : x = c
    · rw [if_pos hx] at h
      obtain ⟨hl, hr⟩ := Prod.mk.injEq _ _ _ _ ▸ Option.some.injEq _ _ ▸ h
      simp only [Option.some.injEq, Prod.mk.injEq] at h
      obtain ⟨hl, hr⟩ := h
      subst hl hr hx
      rfl
    · rw [if_neg hx] at h
      cases hsp : splitAtFirst c t with
      | none => rw [hsp] at h; simp at h
      | some pr =>
        rw [hsp] at h
        obtain ⟨l', r'⟩ := pr
        simp only [Option.some.injEq, Prod.mk.injEq] at h
        obtain ⟨hl, hr⟩ := h
        subst hr
        rw [← hl]
        simpa using ih hsp

theorem emailFilterOk_at {s : String} (h : emailFilterOk s = true) : '@' ∈ s.data := by
  unfold emailFilterOk at h
  cases hsp : splitAtFirst '@' s.data with
  | none => rw [hsp] at h; simp at h
  | some pr =>
    obtain ⟨l, r⟩ := pr
    rw [splitAtFirst_eq hsp]
    simp

theorem normEmail_at_mem {e : String} (h : '@' ∈ (normEmail e).data) : '@' ∈ e.data := by
  unfold normEmail at h
  simp only [List.mem_map] at h
  obtain ⟨c, hc, hce⟩ := h
  have : c = '@' := asciiLower_eq_at hce
  subst this
  exact stripChars_subset hc

theorem emailFilterOk_ne_empty {s : String} (h : emailFilterOk s = true) : s ≠ "" := by
  intro he
  subst he
  exact absurd h (by decide)

theorem acceptNorm_of_filterOk {e : String} (h : emailFilterOk (normEmail e) = true) :
    acceptNorm e = some (normEmail e) := by
  have hne : e ≠ "" := by
    intro he
    subst he
    exact absurd h (by decide)
  have hat : '@' ∈ e.data := normEmail_at_mem (emailFilterOk_at h)
  unfold acceptNorm
  rw [if_pos ⟨hne, hat⟩]
  dsimp only
  rw [if_pos h]

theorem acceptNorm_eq_some {y x : String} (h : acceptNorm y = some x) :
    x = normEmail y ∧ emailFilterOk x = true := by
  unfold acceptNorm at h
  split at h
  · dsimp only at h
    split at h
    · next hok =>
      rw [Option.some.injEq] at h
      exact ⟨h.symm, h ▸ hok⟩
    · exact absurd h (by simp)
  · exact absurd h (by simp)

theorem mem_normalize_iff {a b : List String} {x : String} :
    x ∈ normalize_and_dedup_emails a b
      ↔ ∃ y, y ∈ a ++ b ∧ acceptNorm y = some x := by
  unfold normalize_and_dedup_emails
  rw [List.mem_insertionSort, List.mem_dedup, List.mem_filterMap]

/-! ## C1 -/

/-- C1 counterexample: on the success path the consolidated `emails` is
NOT a superset of the page-regex emails — `a%b@x.ma` is extracted from the
page text but dropped by `normalize_and_dedup_emails`' stricter syntactic
filter, for both model backends. -/
theorem consolidator_union_counterexample :
    "a%b@x.ma" ∈ extract_emails_regex c1data.texte_complet
    ∧ "a%b@x.ma" ∉ (analyze_with_claude c1data (some c1model)).emails
    ∧ "a%b@x.ma" ∉ (analyze_with_gemini c1data (some c1model)).emails := by
  refine ⟨by decide, by decide, by decide⟩

/-- C1 amended: on the fallback path (model call failed) the output
`emails` is a superset of page-regex emails ∪ `emails_from_files`; on the
success path it contains the normalized form of every page-regex email
and every attachment email that passes the `[\w\.\-\+]+@[\w\.\-]+\.\w{2,}`
filter after strip/lower-casing — emails failing that stricter filter
(e.g. containing `%`) may be dropped.  Both model backends behave
identically. -/
theorem consolidator_union_amended (data : PostingRecord) (r : AnalysisResult) :
    (∀ e, e ∈ extract_emails_regex data.texte_complet →
        e ∈ (analyze_with_claude data none).emails
        ∧ e ∈ (analyze_with_gemini data none).emails)
    ∧ (∀ e, e ∈ data.emails_from_files →
        e ∈ (analyze_with_claude data none).emails
        ∧ e ∈ (analyze_with_gemini data none).emails)
    ∧ (∀ e, (e ∈ extract_emails_regex data.texte_complet
          ∨ e ∈ (data.fichiers_attaches.map Fichier.emails_fichier).flatten) →
        emailFilterOk (normEmail e) = true →
        normEmail e ∈ (analyze_with_claude data (some r)).emails
        ∧ normEmail e ∈ (analyze_with_gemini data (some r)).emails) := by
  refine ⟨?_, ?_, ?_⟩
  · intro e he
    constructor <;>
      exact List.mem_dedup.mpr (List.mem_append_left _ he)
  · intro e he
    constructor <;>
      exact List.mem_dedup.mpr (List.mem_append_right _ he)
  · intro e hsrc hok
    have hmem : normEmail e ∈ normalize_and_dedup_emails
        (extract_emails_regex data.texte_complet
          ++ (data.fichiers_attaches.map Fichier.emails_fichier).flatten) r.emails := by
      refine mem_normalize_iff.mpr ⟨e, ?_, acceptNorm_of_filterOk hok⟩
      rcases hsrc with h | h
      · exact List.mem_append_left _ (List.mem_append_left _ h)
      · exact List.mem_append_left _ (List.mem_append_right _ h)
    exact ⟨hmem, hmem⟩

/-- Witness for C1 amended: a plain page email survives the success path
and a file email survives the fallback path. -/
theorem consolidator_union_amended_witness :
    "web@alcs.ma" ∈ (analyze_with_claude wScr1 (some wAna)).emails
    ∧ "tdr@alcs.ma" ∈ (analyze_with_claude wScr1 none).emails := by
  have h := consolidator_union_amended wScr1 wAna
  constructor
  · have hw := (h.2.2 "web@alcs.ma" (Or.inl (by decide)) (by decide)).1
    have hn : normEmail "web@alcs.ma" = "web@alcs.ma" := by decide
    rwa [hn] at hw
  · exact (h.2.1 "tdr@alcs.ma" (by decide)).1

/-! ## C7 -/

theorem filterMap_id_of_mem {f : String → Option String} :
    ∀ {l : List String}, (∀ e ∈ l, f e = some e) → l.filterMap f = l
  | [], _ => rfl
  | x :: t, h => by
    rw [List.filterMap_cons, h x (List.mem_cons_self x t),
      filterMap_id_of_mem (fun e he => h e (List.mem_cons_of_mem x he))]

/-- C7: `normalize_and_dedup_emails` emits a list sorted by code-point
order (Python's string order), duplicate-free, whose every element is
already stripped/lower-cased (`normEmail e = e`) and passes the syntactic
filter; and the function is idempotent — re-running it on its own output
reproduces the identical list. -/
theorem normalize_and_dedup_sorted_idempotent (a b : List String) :
    List.Sorted strLe (normalize_and_dedup_emails a b)
    ∧ (normalize_and_dedup_emails a b).Nodup
    ∧ (∀ e ∈ normalize_and_dedup_emails a b, normEmail e = e ∧ emailFilterOk e = true)
    ∧ normalize_and_dedup_emails (normalize_and_dedup_emails a b) []
        = normalize_and_dedup_emails a b := by
  have hsorted : List.Sorted strLe (normalize_and_dedup_emails a b) :=
    List.sorted_insertionSort strLe _
  have hnodup : (normalize_and_dedup_emails a b).Nodup :=
    ((List.perm_insertionSort strLe _).nodup_iff).mpr (List.nodup_dedup _)
  have helem : ∀ e ∈ normalize_and_dedup_emails a b,
      normEmail e = e ∧ emailFilterOk e = true := by
    intro e he
    obtain ⟨y, _, hy⟩ := mem_normalize_iff.mp he
    obtain ⟨hxy, hok⟩ := acceptNorm_eq_some hy
    subst hxy
    exact ⟨normEmail_idem y, hok⟩
  refine ⟨hsorted, hnodup, helem, ?_⟩
  have hself : ∀ e ∈ normalize_and_dedup_emails a b, acceptNorm e = some e := by
    intro e he
    obtain ⟨hnorm, hok⟩ := helem e he
    have := acceptNorm_of_filterOk (e := e) (by rw [hnorm]; exact hok)
    rwa [hnorm] at this
  conv_lhs => rw [normalize_and_dedup_emails]
  rw [List.append_nil, filterMap_id_of_mem hself,
    List.dedup_eq_self.mpr hnodup]
  exact List.Sorted.insertionSort_eq hsorted

/-- Witness for C7 at a mixed-case, padded input. -/
theorem normalize_and_dedup_sorted_idempotent_witness :
    normEmail "a@b.ma" = "a@b.ma" ∧ emailFilterOk "a@b.ma" = true
    ∧ normalize_and_dedup_emails
        (normalize_and_dedup_emails ["  A@B.MA  ", "pas-un-mail"] ["b@x.org"]) []
      = normalize_and_dedup_emails ["  A@B.MA  ", "pas-un-mail"] ["b@x.org"] := by
  have h := normalize_and_dedup_sorted_idempotent ["  A@B.MA  ", "pas-un-mail"] ["b@x.org"]
  exact ⟨(h.2.2.1 "a@b.ma" (by decide)).1, (h.2.2.1 "a@b.ma" (by decide)).2, h.2.2.2⟩

/-! ## C2 -/

/-- All four patterns start with `\b` then the local-part class; at a
`'~'` (neither word character nor local-part character) they fail
immediately, whatever came before. -/
theorem matchToks_tilde_none (grps : List Nat) (toks : List Tok) (st : MState)
    (r : List Char) (hrest : st.rest = '~' :: r) :
    matchToks (Tok.wb :: Tok.cls localCls Quant.plus grps :: toks) st = none := by
  have hl : localCls '~' = false := by decide
  simp only [matchToks]
  rw [hrest]
  simp [List.takeWhile_cons, hl, ksFor]

/-- One scan step over a position where the pattern does not match. -/
theorem scanAux_succ_none (pat : List Tok) (mk : MState → String) (fuel : Nat)
    (prev : Option Char) (c : Char) (cs : List Char) (acc : List String)
    (hnone : matchToks pat { prev := prev, rest := c :: cs } = none) :
    scanAux pat mk (Nat.succ fuel) prev (c :: cs) acc
      = scanAux pat mk fuel (some c) cs acc := by
  simp only [scanAux]
  rw [hnone]

/-- Scanning skips a block of `'~'` fillers without finding anything. -/
theorem scanAux_skip_tilde (grps : List Nat) (toks : List Tok) (mk : MState → String) :
    ∀ (n fuel : Nat) (prev : Option Char) (s : List Char) (acc : List String),
      scanAux (Tok.wb :: Tok.cls localCls Quant.plus grps :: toks) mk (n + fuel) prev
          (List.replicate n '~' ++ s) acc
        = scanAux (Tok.wb :: Tok.cls localCls Quant.plus grps :: toks) mk fuel
            (if n = 0 then prev else some '~') s acc
  | 0, fuel, prev, s, acc => by simp
  | Nat.succ n, fuel, prev, s, acc => by
    rw [Nat.succ_add, List.replicate_succ, List.cons_append,
      scanAux_succ_none _ _ _ _ _ _ _ (matchToks_tilde_none grps toks _ _ rfl),
      scanAux_skip_tilde grps toks mk n fuel (some '~') s acc]
    cases n <;> simp

theorem longText_data :
    longText.data = List.replicate 5000 '~' ++ ['x', '@', 'y', '.', 'm', 'a'] := rfl

theorem longText_ne_empty : longText ≠ "" := by
  intro h
  have h2 := congrArg String.data h
  rw [longText_data] at h2
  rw [List.append_eq_nil] at h2
  exact absurd h2.2 (by simp)

theorem longText_length : longText.length = 5006 := by
  show longText.data.length = 5006
  rw [longText_data, List.length_append, List.length_replicate]
  rfl

theorem findPattern_longText (grps : List Nat) (toks : List Tok) (mk : MState → String) :
    findPattern (Tok.wb :: Tok.cls localCls Quant.plus grps :: toks) mk longText.data
      = scanAux (Tok.wb :: Tok.cls localCls Quant.plus grps :: toks) mk 7 (some '~')
          ['x', '@', 'y', '.', 'm', 'a'] [] := by
  unfold findPattern
  rw [longText_data]
  have hlen : (List.replicate 5000 '~' ++ ['x', '@', 'y', '.', 'm', 'a']).length + 1
      = 5000 + 7 := by
    rw [List.length_append, List.length_replicate]
    rfl
  rw [hlen, scanAux_skip_tilde]
  rw [if_neg (by omega)]

theorem extract_longText : extract_emails_from_text longText = ["x@y.ma"] := by
  have h1 : findPattern pattern1 mkWhole longText.data
      = scanAux pattern1 mkWhole 7 (some '~') ['x', '@', 'y', '.', 'm', 'a'] [] :=
    findPattern_longText [0] _ mkWhole
  have h2 : findPattern pattern2 mkGroups123 longText.data
      = scanAux pattern2 mkGroups123 7 (some '~') ['x', '@', 'y', '.', 'm', 'a'] [] :=
    findPattern_longText [1] _ mkGroups123
  have h3 : findPattern pattern3 mkGroups123 longText.data
      = scanAux pattern3 mkGroups123 7 (some '~') ['x', '@', 'y', '.', 'm', 'a'] [] :=
    findPattern_longText [1] _ mkGroups123
  have h4 : findPattern pattern4 mkGroups123 longText.data
      = scanAux pattern4 mkGroups123 7 (some '~') ['x', '@', 'y', '.', 'm', 'a'] [] :=
    findPattern_longText [1] _ mkGroups123
  have e1 : scanAux pattern1 mkWhole 7 (some '~') ['x', '@', 'y', '.', 'm', 'a'] []
      = ["x@y.ma"] := by decide
  have e2 : scanAux pattern2 mkGroups123 7 (some '~') ['x', '@', 'y', '.', 'm', 'a'] []
      = ["x@y.ma"] := by decide
  have e3 : scanAux pattern3 mkGroups123 7 (some '~') ['x', '@', 'y', '.', 'm', 'a'] []
      = [] := by decide
  have e4 : scanAux pattern4 mkGroups123 7 (some '~') ['x', '@', 'y', '.', 'm', 'a'] []
      = [] := by decide
  unfold extract_emails_from_text
  rw [if_neg longText_ne_empty]
  dsimp only
  rw [h1, h2, h3, h4, e1, e2, e3, e4]
  decide

theorem pdfFullText_long : pdfFullText pdfLongDoc = longText := by
  unfold pdfFullText pdfLongDoc
  dsimp only
  rw [show List.take 20 [some longText] = [some longText] from rfl,
    List.filterMap_cons]
  dsimp only
  rw [if_neg longText_ne_empty]
  rfl

theorem docFullText_long : docFullText docLongBin = longText := rfl

theorem stripStr_long : stripStr longText = longText := by
  have hcons : longText.data = '~' :: (List.replicate 4999 '~' ++ ['x', '@', 'y', '.', 'm', 'a']) := by
    rw [longText_data, show (5000 : Nat) = 4999 + 1 by norm_num, List.replicate_succ,
      List.cons_append]
  have hrev : longText.data.reverse
      = 'a' :: (['m', '.', 'y', '@', 'x'] ++ List.replicate 5000 '~') := by
    rw [longText_data, List.reverse_append, List.reverse_replicate,
      show (['x', '@', 'y', '.', 'm', 'a'] : List Char).reverse
        = ['a', 'm', '.', 'y', '@', 'x'] from rfl, List.cons_append]
  have h1 : longText.data.dropWhile isSpaceC = longText.data := by
    conv_lhs => rw [hcons]
    rw [List.dropWhile_cons_of_neg (by decide)]
    exact hcons.symm
  have h2 : longText.data.reverse.dropWhile isSpaceC = longText.data.reverse := by
    conv_lhs => rw [hrev]
    rw [List.dropWhile_cons_of_neg (by decide)]
    exact hrev.symm
  show String.mk (stripChars longText.data) = longText
  rw [stripChars, h1, h2, List.reverse_reverse]

theorem docxFullText_long : docxFullText docxLongDoc = longText := by
  unfold docxFullText docxLongDoc
  dsimp only
  rw [List.filter_cons_of_pos (by
    show decide (stripStr longText ≠ "") = true
    rw [stripStr_long]
    simp [longText_ne_empty])]
  rfl

/-- C2: in every Document Extractor variant (PDF, DOCX, legacy DOC) email
recognition runs on the FULL extracted text before truncation: whenever
the extracted text exceeds the 5000-character cap, any email recognized in
the full text is in the returned email list, while the returned text is
the capped prefix with the `...[tronqué]` marker appended. -/
theorem email_extraction_before_truncation (p : PdfDoc) (dx : DocxDoc) (b : DocBin)
    (e1 e2 e3 : String) :
    ((pdfFullText p).length > MAX_FILE_CONTENT_LENGTH →
        e1 ∈ extract_emails_from_text (pdfFullText p) →
        e1 ∈ (parse_pdf_content p).2
        ∧ (parse_pdf_content p).1
            = takeStr (pdfFullText p) MAX_FILE_CONTENT_LENGTH ++ "...[tronqué]")
    ∧ ((docxFullText dx).length > MAX_FILE_CONTENT_LENGTH →
        e2 ∈ extract_emails_from_text (docxFullText dx) →
        e2 ∈ (parse_docx_content dx).2
        ∧ (parse_docx_content dx).1
            = takeStr (docxFullText dx) MAX_FILE_CONTENT_LENGTH ++ "...[tronqué]")
    ∧ ((docFullText b).length > MAX_FILE_CONTENT_LENGTH →
        e3 ∈ extract_emails_from_text (docFullText b) →
        e3 ∈ (parse_doc_content b).2
        ∧ (parse_doc_content b).1
            = takeStr (docFullText b) MAX_FILE_CONTENT_LENGTH ++ "...[tronqué]") := by
  refine ⟨?_, ?_, ?_⟩
  · intro hlen hmem
    cases hp : p.pages with
    | none =>
      exfalso
      unfold pdfFullText at hlen
      rw [hp] at hlen
      exact absurd hlen (by decide)
    | some pages =>
      unfold parse_pdf_content
      rw [hp]
      dsimp only
      rw [if_pos hlen]
      exact ⟨hmem, rfl⟩
  · intro hlen hmem
    cases hp : dx.content with
    | none =>
      exfalso
      unfold docxFullText at hlen
      rw [hp] at hlen
      exact absurd hlen (by decide)
    | some pair =>
      unfold parse_docx_content
      rw [hp]
      dsimp only
      rw [if_pos hlen]
      exact ⟨hmem, rfl⟩
  · intro hlen hmem
    have hne : docFullText b ≠ "" := by
      intro h
      rw [h] at hlen
      exact absurd hlen (by decide)
    unfold parse_doc_content
    dsimp only
    rw [if_neg hne, if_pos hlen]
    exact ⟨hmem, rfl⟩

/-- Witness for C2 on a 5006-character text (for each of the three
variants) whose only email starts at offset 5000, past the cap. -/
theorem email_extraction_before_truncation_witness :
    "x@y.ma" ∈ (parse_pdf_content pdfLongDoc).2
    ∧ "x@y.ma" ∈ (parse_docx_content docxLongDoc).2
    ∧ "x@y.ma" ∈ (parse_doc_content docLongBin).2 := by
  have hlen : longText.length > MAX_FILE_CONTENT_LENGTH := by
    rw [longText_length]
    decide
  have hmem : "x@y.ma" ∈ extract_emails_from_text longText := by
    rw [extract_longText]
    exact List.mem_singleton.mpr rfl
  have h := email_extraction_before_truncation pdfLongDoc docxLongDoc docLongBin
    "x@y.ma" "x@y.ma" "x@y.ma"
  refine ⟨?_, ?_, ?_⟩
  · exact (h.1 (by rw [pdfFullText_long]; exact hlen)
      (by rw [pdfFullText_long]; exact hmem)).1
  · exact (h.2.1 (by rw [docxFullText_long]; exact hlen)
      (by rw [docxFullText_long]; exact hmem)).1
  · exact (h.2.2 (by rw [docFullText_long]; exact hlen)
      (by rw [docFullText_long]; exact hmem)).1
